import Mathlib

/-!
Verification of the HTML → Markdown conversion pipeline of the
markdown-for-agents sidecar service (src/app/main.py).

The pipeline operates on a parsed HTML document (a tree built by a lenient
external parser).  We embed the parsed tree shallowly as the inductive type
`Node`; element attributes are an association list.  The pipeline functions
`extract_metadata`, `strip_non_content`, `html_to_markdown` and
`count_tokens` are translated from src/app/main.py; external collaborators
(the tokenizer, the Markdown serializer) are represented by oracles or by
definitions modelled from the specification's contract and are marked as
such in their doc comments.
-/

/-- A node of the parsed HTML document tree (the in-memory representation the
`BeautifulSoup` parser hands to the pipeline): either a text node or an
element with a tag name, an attribute list and children.  The whole document
is represented as a synthetic root element (tag `[document]`), as in the
library. -/
inductive Node where
  | text (s : String)
  | elem (tag : String) (attrs : List (String × String)) (children : List Node)
deriving Repr, Inhabited

mutual

/-- Boolean structural equality of nodes (the derived handler does not support
this nested inductive, so it is written out). -/
def nodeBEq : Node → Node → Bool
  | Node.text s, Node.text t => s == t
  | Node.elem t1 a1 c1, Node.elem t2 a2 c2 => t1 == t2 && a1 == a2 && nodeListBEq c1 c2
  | _, _ => false

/-- Boolean structural equality of node lists. -/
def nodeListBEq : List Node → List Node → Bool
  | [], [] => true
  | x :: xs, y :: ys => nodeBEq x y && nodeListBEq xs ys
  | _, _ => false

end

mutual

theorem nodeBEq_refl : ∀ n : Node, nodeBEq n n = true
  | Node.text s => by simp [nodeBEq]
  | Node.elem t a c => by simp [nodeBEq, nodeListBEq_refl c]

theorem nodeListBEq_refl : ∀ l : List Node, nodeListBEq l l = true
  | [] => by simp [nodeListBEq]
  | x :: xs => by simp [nodeListBEq, nodeBEq_refl x, nodeListBEq_refl xs]

end

mutual

theorem eq_of_nodeBEq : ∀ a b : Node, nodeBEq a b = true → a = b
  | Node.text s, Node.text t, h => by
    simp [nodeBEq] at h; simp [h]
  | Node.elem t1 a1 c1, Node.elem t2 a2 c2, h => by
    simp [nodeBEq] at h
    obtain ⟨⟨h1, h2⟩, h3⟩ := h
    have := eq_of_nodeListBEq c1 c2 h3
    simp [h1, h2, this]
  | Node.text _, Node.elem _ _ _, h => by simp [nodeBEq] at h
  | Node.elem _ _ _, Node.text _, h => by simp [nodeBEq] at h

theorem eq_of_nodeListBEq : ∀ a b : List Node, nodeListBEq a b = true → a = b
  | [], [], _ => rfl
  | x :: xs, y :: ys, h => by
    simp [nodeListBEq] at h
    have h1 := eq_of_nodeBEq x y h.1
    have h2 := eq_of_nodeListBEq xs ys h.2
    simp [h1, h2]
  | [], _ :: _, h => by simp [nodeListBEq] at h
  | _ :: _, [], h => by simp [nodeListBEq] at h

end

instance : DecidableEq Node := fun a b =>
  decidable_of_iff (nodeBEq a b = true) ⟨eq_of_nodeBEq a b, fun h => h ▸ nodeBEq_refl a⟩

/-- Look up an attribute value by name (Python `tag.get(name)` /
`tag[name]`). -/
def attrOf (attrs : List (String × String)) (name : String) : Option String :=
  (attrs.find? (fun p => p.1 == name)).map Prod.snd

/-- Split a character list into maximal whitespace-free words (Python
`str.split()` with no separator argument: no empty pieces). -/
def wordsAux : List Char → List Char → List String
  | curr, [] => if curr.isEmpty then [] else [String.mk curr.reverse]
  | curr, c :: rest =>
    if c.isWhitespace then
      if curr.isEmpty then wordsAux [] rest
      else String.mk curr.reverse :: wordsAux [] rest
    else wordsAux (c :: curr) rest

/-- The class list of an element: the parser treats `class` as a multi-valued
attribute, splitting its value on whitespace. -/
def classList (attrs : List (String × String)) : List String :=
  wordsAux [] ((attrOf attrs "class").getD "").data

/-- Whether `s` starts with `pre` (Python `str.startswith`). -/
def py_startswith (s pre : String) : Bool :=
  pre.data.isPrefixOf s.data

/-- Python `str.strip()`: remove leading and trailing whitespace. -/
def pyStrip (s : String) : String :=
  String.mk (((s.data.dropWhile Char.isWhitespace).reverse.dropWhile Char.isWhitespace).reverse)

mutual

/-- All proper descendants of a node, in document (pre-) order: the order in
which the parser's recursive search visits them. -/
def descendants : Node → List Node
  | Node.text _ => []
  | Node.elem _ _ cs => descList cs

/-- Descendant listing of a forest, in document order. -/
def descList : List Node → List Node
  | [] => []
  | c :: cs => c :: descendants c ++ descList cs

end

/-- `soup.find(...)`: the first node in document order among the descendants
of `doc` satisfying the filter, if any. -/
def find_first (doc : Node) (p : Node → Bool) : Option Node :=
  (descendants doc).find? p

/-- Element filter: a tag with the given name (`soup.find("main")` etc.;
text nodes never match a name filter). -/
def tagNamed (name : String) : Node → Bool
  | Node.elem t _ _ => t == name
  | Node.text _ => false

/-- Element filter for `soup.find("div", id-is-content)`: a `div` whose
`id` attribute equals the given value. -/
def divWithId (v : String) : Node → Bool
  | Node.elem t a _ => t == "div" && attrOf a "id" == some v
  | Node.text _ => false

/-- Element filter for `soup.find("div", class-contains-content)`: a `div`
whose (multi-valued) class list contains the given value. -/
def divWithClass (v : String) : Node → Bool
  | Node.elem t a _ => t == "div" && (classList a).contains v
  | Node.text _ => false

/-- Element filter for `soup.find("meta", ...)`: a `meta` element whose
attribute `key` equals `val` exactly. -/
def metaWithAttr (key val : String) : Node → Bool
  | Node.elem t a _ => t == "meta" && attrOf a key == some val
  | Node.text _ => false

/-- A strip selector, covering the selector grammar subset the service uses
(src/app/main.py STRIP_SELECTORS): a tag name, a `.class` pattern, a `#id`
pattern, or an attribute-equals pattern such as `[role='navigation']`. -/
inductive Selector where
  | tag (name : String)
  | cls (name : String)
  | idIs (name : String)
  | attrEq (key val : String)
deriving Repr, DecidableEq

/-- Whether an element matches a selector.  Matching inspects only the node's
tag and attributes; text nodes match no selector. -/
def matchesSel (s : Selector) : Node → Bool
  | Node.text _ => false
  | Node.elem t a _ =>
    match s with
    | Selector.tag n => t == n
    | Selector.cls n => (classList a).contains n
    | Selector.idIs n => attrOf a "id" == some n
    | Selector.attrEq k v => attrOf a k == some v

/-- The default strip rule set (src/app/main.py lines 42-52): everything that
is chrome, not content. -/
def defaultStripSelectors : List Selector :=
  [Selector.tag "nav", Selector.tag "header", Selector.tag "footer",
   Selector.tag "script", Selector.tag "style", Selector.tag "noscript",
   Selector.tag "iframe", Selector.tag "object", Selector.tag "embed",
   Selector.cls "cookie-banner", Selector.cls "cookie-consent",
   Selector.idIs "cookie-banner", Selector.idIs "cookie-consent",
   Selector.attrEq "role" "navigation", Selector.attrEq "role" "banner",
   Selector.attrEq "role" "contentinfo",
   Selector.cls "breadcrumb", Selector.cls "pagination",
   Selector.cls "sidebar", Selector.tag "aside",
   Selector.tag "form"]

/-- The process-wide strip rule set: the defaults extended with the extra
selectors provided via configuration (src/app/main.py lines 54-57). -/
def STRIP_SELECTORS (extra : List Selector) : List Selector :=
  defaultStripSelectors ++ extra

mutual

/-- Remove from the subtree below `n` every element matching the selector,
together with its whole subtree (`element.decompose()` applied to every
match of one rule).  The root node itself is kept: `select` matches
descendants of the context element. -/
def stripRule (r : Selector) : Node → Node
  | Node.text s => Node.text s
  | Node.elem t a cs => Node.elem t a (stripRuleList r cs)

/-- Rule removal over a forest of children. -/
def stripRuleList (r : Selector) : List Node → List Node
  | [] => []
  | c :: cs =>
    if matchesSel r c then stripRuleList r cs
    else stripRule r c :: stripRuleList r cs

end

/-- `strip_non_content` (src/app/main.py lines 107-112): apply every rule of
the ordered rule set, in order, to the content root. -/
def strip_non_content (rules : List Selector) (root : Node) : Node :=
  rules.foldl (fun acc r => stripRule r acc) root

/-- The `.string` of a tag (`title_tag.string` in `extract_metadata`): the
single text child of the tag, descending through unique children; `none` as
soon as a tag has zero or several children. -/
def nodeString : Node → Option String
  | Node.text s => some s
  | Node.elem _ _ [c] => nodeString c
  | Node.elem _ _ _ => none

/-- The `title` entry of the metadata (src/app/main.py lines 91-93): present
when the document has a `title` element whose `.string` is non-`None` and
non-empty (Python truthiness of the raw string); the stored value is the
trimmed string. -/
def title_entry (doc : Node) : Option (String × String) :=
  match find_first doc (tagNamed "title") with
  | some t =>
    match nodeString t with
    | some s => if s == "" then none else some ("title", pyStrip s)
    | none => none
  | none => none

/-- A named metadata entry (src/app/main.py lines 95-102): the first `meta`
element whose attribute `key` equals `val`; present when its `content`
attribute exists and is non-empty (Python truthiness of the raw value); the
stored value is the trimmed content. -/
def meta_entry (doc : Node) (key val field : String) : Option (String × String) :=
  match find_first doc (metaWithAttr key val) with
  | some (Node.elem _ a _) =>
    match attrOf a "content" with
    | some c => if c == "" then none else some (field, pyStrip c)
    | none => none
  | _ => none

/-- `extract_metadata` (src/app/main.py lines 87-104).  The Python dict is
modelled as an association list in insertion order: each key is inserted at
most once, in the fixed order title, description, author, keywords, image. -/
def extract_metadata (doc : Node) : List (String × String) :=
  (title_entry doc).toList
  ++ (meta_entry doc "name" "description" "description").toList
  ++ (meta_entry doc "name" "author" "author").toList
  ++ (meta_entry doc "name" "keywords" "keywords").toList
  ++ (meta_entry doc "property" "og:image" "image").toList

/-- The content-root fallback chain (src/app/main.py lines 127-134):
`soup.find("main") or soup.find("article") or soup.find("div", id=content)
or soup.find("div", class=content) or soup.body or soup`. -/
def select_content_root (doc : Node) : Node :=
  (((((find_first doc (tagNamed "main")).orElse
      (fun _ => find_first doc (tagNamed "article"))).orElse
      (fun _ => find_first doc (divWithId "content"))).orElse
      (fun _ => find_first doc (divWithClass "content"))).orElse
      (fun _ => find_first doc (tagNamed "body"))).getD doc

/-- Whether a line is blank (`line.strip() == ""` in the cleanup loop):
empty or whitespace-only. -/
def isBlankLine (l : String) : Bool :=
  pyStrip l == ""

/-- The blank-line cleanup loop of `html_to_markdown` (src/app/main.py lines
151-161), with the running count of consecutive blank lines as first
argument: a blank line is emitted (as an empty line) only while the count is
at most 2; a non-blank line resets the count and is kept verbatim. -/
def cleanAux : Nat → List String → List String
  | _, [] => []
  | blank_count, l :: ls =>
    if isBlankLine l then
      (if blank_count + 1 ≤ 2 then [""] else []) ++ cleanAux (blank_count + 1) ls
    else
      l :: cleanAux 0 ls

/-- The cleanup loop started with a zero blank-line count. -/
def cleanLines (lines : List String) : List String :=
  cleanAux 0 lines

/-- Character-level worker for `splitlines`: `curr` holds the characters of
the current line, reversed. -/
def splitlinesAux : List Char → List Char → List String
  | curr, [] => [String.mk curr.reverse]
  | curr, c :: rest =>
    if c == '\n' then
      String.mk curr.reverse :: (if rest.isEmpty then [] else splitlinesAux [] rest)
    else splitlinesAux (c :: curr) rest

/-- Python `str.splitlines()` for newline-separated text: split on the line
separator, without a trailing empty piece for a trailing newline, and with
no piece at all for the empty string. -/
def splitlines (s : String) : List String :=
  if s.data.isEmpty then [] else splitlinesAux [] s.data

/-- Step 6 of `html_to_markdown` (src/app/main.py lines 150-162): split the
serialized Markdown into lines, collapse excessive blank-line runs, join the
lines back and strip the result. -/
def normalizeBlankLines (markdown_body : String) : String :=
  pyStrip (String.intercalate "\n" (cleanLines (splitlines markdown_body)))

/-- Python `value.replace(quote, backslash-quote)` (src/app/main.py line
168): every double quote in the value is preceded by a backslash. -/
def escape_value (v : String) : String :=
  String.mk (v.data.flatMap (fun c => if c == '\"' then ['\\', '\"'] else [c]))

/-- One line of the front-matter block (src/app/main.py line 169):
`key: "escaped-value"` with double quotes inside the value preceded by a
backslash. -/
def front_matter_line (kv : String × String) : String :=
  kv.1 ++ ": \"" ++ escape_value kv.2 ++ "\""

/-- Step 7 of `html_to_markdown` (src/app/main.py lines 164-172): when
metadata is non-empty, prepend the delimited front-matter block and a blank
line; otherwise return the body unchanged. -/
def compose_front_matter (metadata : List (String × String)) (markdown_body : String) : String :=
  if metadata.isEmpty then markdown_body
  else
    String.intercalate "\n" (["---"] ++ metadata.map front_matter_line ++ ["---"])
      ++ "\n\n" ++ markdown_body

/-- The ATX heading marker for a heading tag, if the tag is a heading. -/
def headingMarker (tag : String) : Option String :=
  if tag == "h1" then some "#"
  else if tag == "h2" then some "##"
  else if tag == "h3" then some "###"
  else if tag == "h4" then some "####"
  else if tag == "h5" then some "#####"
  else if tag == "h6" then some "######"
  else none

/-- Modelled from the spec: rendering of a single element around the already
rendered content of its children (see `serializeNode`). -/
def serializeElem (t : String) (a : List (String × String)) (inner : String) : String :=
  match headingMarker t with
  | some marker => "\n\n" ++ marker ++ " " ++ inner ++ "\n\n"
  | none =>
    if t == "p" then "\n\n" ++ inner ++ "\n\n"
    else if t == "li" then "- " ++ inner ++ "\n"
    else if t == "a" then "[" ++ inner ++ "](" ++ (attrOf a "href").getD "" ++ ")"
    else if t == "strong" || t == "b" then "**" ++ inner ++ "**"
    else if t == "em" || t == "i" then "*" ++ inner ++ "*"
    else if t == "code" then "`" ++ inner ++ "`"
    else if t == "blockquote" then "\n\n> " ++ inner ++ "\n\n"
    else if t == "ul" || t == "ol" then "\n\n" ++ inner ++ "\n"
    else inner

mutual

/-- Modelled from the spec: the Markdown Serializer (the external
`markdownify` call at src/app/main.py lines 144-148, not code of this
repository), per the spec's serializer contract: ATX headings, `-` bullets,
`[text](href)` anchors, standard bold/italic/inline-code/blockquote
equivalents; text content passes through; any other element renders as its
children. -/
def serializeNode : Node → String
  | Node.text s => s
  | Node.elem t a cs => serializeElem t a (serializeList cs)

/-- Serialization of a forest: concatenation of the children's renderings. -/
def serializeList : List Node → String
  | [] => ""
  | c :: cs => serializeNode c ++ serializeList cs

end

/-- Steps 2-4 of `html_to_markdown` (src/app/main.py lines 126-141): select
the content root, strip non-content elements with the configured rule set,
then unconditionally remove every remaining `img` element. -/
def pruned_content_root (extra : List Selector) (doc : Node) : Node :=
  stripRule (Selector.tag "img")
    (strip_non_content (STRIP_SELECTORS extra) (select_content_root doc))

set_option linter.unusedVariables false in
/-- `html_to_markdown` (src/app/main.py lines 115-174): convert a parsed
HTML document to Markdown plus metadata.  `extra` is the configured list of
additional strip selectors; `page_url` is the (unused) URL argument. -/
def html_to_markdown (extra : List Selector) (doc : Node) (page_url : String) :
    String × List (String × String) :=
  let metadata := extract_metadata doc
  let markdown_body := serializeNode (pruned_content_root extra doc)
  let markdown_body := normalizeBlankLines markdown_body
  let markdown_body := compose_front_matter metadata markdown_body
  (markdown_body, metadata)

/-- `count_tokens` (src/app/main.py lines 177-183).  The external tiktoken
encoder is represented by an oracle `enc` returning the token sequence, or
`none` when the tokenizer cannot be invoked for any reason (the `except`
branch); in that case the length-quarter fallback is used. -/
def count_tokens (enc : String → Option (List Nat)) (text : String) : Nat :=
  match enc text with
  | some tokens => tokens.length
  | none => text.length / 4

/-- A tokenizer oracle that always fails: the pure fallback path. -/
def encFail : String → Option (List Nat) := fun _ => none

/-!  Lemmas about rule stripping. -/

theorem matchesSel_stripRule (s r : Selector) (n : Node) :
    matchesSel s (stripRule r n) = matchesSel s n := by
  cases n <;> rfl

theorem mem_descList_cons (m c : Node) (cs : List Node) :
    m ∈ descList (c :: cs) ↔ m = c ∨ m ∈ descendants c ∨ m ∈ descList cs := by
  simp [descList, List.mem_append]

mutual

theorem stripRule_noMatch : ∀ (r : Selector) (n : Node),
    ∀ m ∈ descendants (stripRule r n), matchesSel r m = false
  | _, Node.text _ => by simp [stripRule, descendants]
  | r, Node.elem t a cs => by
    simpa [stripRule, descendants] using stripRuleList_noMatch r cs

theorem stripRuleList_noMatch : ∀ (r : Selector) (cs : List Node),
    ∀ m ∈ descList (stripRuleList r cs), matchesSel r m = false
  | _, [] => by simp [stripRuleList, descList]
  | r, c :: cs => by
    by_cases h : matchesSel r c
    · simpa [stripRuleList, h] using stripRuleList_noMatch r cs
    · intro m hm
      rw [stripRuleList, if_neg h] at hm
      rcases (mem_descList_cons m _ _).mp hm with rfl | hm | hm
      · rw [matchesSel_stripRule]
        exact Bool.eq_false_iff.mpr h
      · exact stripRule_noMatch r c m hm
      · exact stripRuleList_noMatch r cs m hm

end

mutual

theorem stripRule_pres : ∀ (s r : Selector) (n : Node),
    (∀ m ∈ descendants n, matchesSel s m = false) →
    ∀ m ∈ descendants (stripRule r n), matchesSel s m = false
  | _, _, Node.text _, _ => by simp [stripRule, descendants]
  | s, r, Node.elem t a cs, h => by
    rw [descendants] at h
    simpa [stripRule, descendants] using stripRuleList_pres s r cs h

theorem stripRuleList_pres : ∀ (s r : Selector) (cs : List Node),
    (∀ m ∈ descList cs, matchesSel s m = false) →
    ∀ m ∈ descList (stripRuleList r cs), matchesSel s m = false
  | _, _, [], _ => by simp [stripRuleList, descList]
  | s, r, c :: cs, h => by
    have hc : matchesSel s c = false :=
      h c ((mem_descList_cons c c cs).mpr (Or.inl rfl))
    have hcdesc : ∀ m ∈ descendants c, matchesSel s m = false := fun m hm =>
      h m ((mem_descList_cons m c cs).mpr (Or.inr (Or.inl hm)))
    have hcs : ∀ m ∈ descList cs, matchesSel s m = false := fun m hm =>
      h m ((mem_descList_cons m c cs).mpr (Or.inr (Or.inr hm)))
    by_cases hr : matchesSel r c
    · simpa [stripRuleList, hr] using stripRuleList_pres s r cs hcs
    · intro m hm
      rw [stripRuleList, if_neg hr] at hm
      rcases (mem_descList_cons m _ _).mp hm with rfl | hm | hm
      · rw [matchesSel_stripRule]; exact hc
      · exact stripRule_pres s r c hcdesc m hm
      · exact stripRuleList_pres s r cs hcs m hm

end

mutual

theorem stripRule_eq_self : ∀ (r : Selector) (n : Node),
    (∀ m ∈ descendants n, matchesSel r m = false) → stripRule r n = n
  | _, Node.text _, _ => rfl
  | r, Node.elem t a cs, h => by
    rw [descendants] at h
    rw [stripRule, stripRuleList_eq_self r cs h]

theorem stripRuleList_eq_self : ∀ (r : Selector) (cs : List Node),
    (∀ m ∈ descList cs, matchesSel r m = false) → stripRuleList r cs = cs
  | _, [], _ => rfl
  | r, c :: cs, h => by
    have hc : matchesSel r c = false :=
      h c ((mem_descList_cons c c cs).mpr (Or.inl rfl))
    have hcdesc : ∀ m ∈ descendants c, matchesSel r m = false := fun m hm =>
      h m ((mem_descList_cons m c cs).mpr (Or.inr (Or.inl hm)))
    have hcs : ∀ m ∈ descList cs, matchesSel r m = false := fun m hm =>
      h m ((mem_descList_cons m c cs).mpr (Or.inr (Or.inr hm)))
    rw [stripRuleList, if_neg (Bool.eq_false_iff.mp hc),
      stripRule_eq_self r c hcdesc, stripRuleList_eq_self r cs hcs]

end

theorem strip_non_content_cons (r : Selector) (rs : List Selector) (root : Node) :
    strip_non_content (r :: rs) root = strip_non_content rs (stripRule r root) := rfl

theorem strip_non_content_pres (s : Selector) (rules : List Selector) :
    ∀ root : Node, (∀ m ∈ descendants root, matchesSel s m = false) →
    ∀ m ∈ descendants (strip_non_content rules root), matchesSel s m = false := by
  induction rules with
  | nil => intro root h; simpa [strip_non_content] using h
  | cons r rs ih =>
    intro root h
    rw [strip_non_content_cons]
    exact ih (stripRule r root) (stripRule_pres s r root h)

theorem strip_non_content_noMatch (rules : List Selector) (r : Selector) :
    ∀ root : Node, r ∈ rules →
    ∀ m ∈ descendants (strip_non_content rules root), matchesSel r m = false := by
  induction rules with
  | nil => intro root h; simp at h
  | cons r0 rs ih =>
    intro root hr
    rw [strip_non_content_cons]
    rcases List.mem_cons.mp hr with rfl | hr
    · exact strip_non_content_pres r rs (stripRule r root) (stripRule_noMatch r root)
    · exact ih (stripRule r0 root) hr

theorem strip_non_content_eq_self (rules : List Selector) :
    ∀ root : Node, (∀ r ∈ rules, ∀ m ∈ descendants root, matchesSel r m = false) →
    strip_non_content rules root = root := by
  induction rules with
  | nil => intro root _; rfl
  | cons r0 rs ih =>
    intro root h
    rw [strip_non_content_cons, stripRule_eq_self r0 root (h r0 (by simp))]
    exact ih root (fun r hr => h r (by simp [hr]))

theorem strip_non_content_idem (rules : List Selector) (root : Node) :
    strip_non_content rules (strip_non_content rules root)
      = strip_non_content rules root :=
  strip_non_content_eq_self rules _
    (fun r hr => strip_non_content_noMatch rules r root hr)

/-!  Lemmas about the blank-line cleanup. -/

theorem cleanAux_nonblank (c : Nat) (x : String) (rest : List String)
    (hx : isBlankLine x = false) :
    cleanAux c (x :: rest) = x :: cleanAux 0 rest := by
  simp [cleanAux, hx]

theorem cleanAux_blank_run :
    ∀ (run : List String), (∀ l ∈ run, isBlankLine l = true) →
    ∀ (c : Nat) (rest : List String),
    cleanAux c (run ++ rest)
      = List.replicate (min run.length (2 - c)) "" ++ cleanAux (c + run.length) rest := by
  intro run
  induction run with
  | nil => intro _ c rest; simp
  | cons b run ih =>
    intro hb c rest
    have hbb : isBlankLine b = true := hb b (by simp)
    have hbrun : ∀ l ∈ run, isBlankLine l = true := fun l hl => hb l (by simp [hl])
    rw [List.cons_append]
    rw [show cleanAux c (b :: (run ++ rest))
        = (if c + 1 ≤ 2 then [""] else []) ++ cleanAux (c + 1) (run ++ rest)
      from by simp [cleanAux, hbb]]
    rw [ih hbrun (c + 1) rest]
    rw [show c + 1 + run.length = c + (b :: run).length from by simp; omega]
    rw [show (b :: run).length = run.length + 1 from by simp]
    by_cases hc : c + 1 ≤ 2
    · rw [if_pos hc]
      rw [show min (run.length + 1) (2 - c) = min run.length (2 - (c + 1)) + 1 from by
        omega]
      rw [List.replicate_succ]
      simp
    · rw [if_neg hc]
      rw [show min run.length (2 - (c + 1)) = 0 from by omega,
        show min (run.length + 1) (2 - c) = 0 from by omega]
      simp

/-!  Lemmas about `pyStrip`. -/

theorem head_dropWhile_false (p : Char → Bool) :
    ∀ (l : List Char) (c : Char), (l.dropWhile p).head? = some c → p c = false := by
  intro l
  induction l with
  | nil => simp
  | cons a l ih =>
    intro c h
    by_cases ha : p a
    · rw [List.dropWhile_cons, if_pos ha] at h
      exact ih c h
    · rw [List.dropWhile_cons, if_neg ha] at h
      simp at h
      subst h
      exact Bool.eq_false_iff.mpr ha

theorem dropWhile_head_false (p : Char → Bool) (l : List Char)
    (h : ∀ c, l.head? = some c → p c = false) : l.dropWhile p = l := by
  cases l with
  | nil => rfl
  | cons a l =>
    rw [List.dropWhile_cons, if_neg (Bool.eq_false_iff.mp (h a rfl))]

theorem dropWhile_idem (p : Char → Bool) (l : List Char) :
    (l.dropWhile p).dropWhile p = l.dropWhile p :=
  dropWhile_head_false p _ (head_dropWhile_false p l)

theorem dropWhile_suffix_chars (p : Char → Bool) :
    ∀ l : List Char, l.dropWhile p <:+ l := by
  intro l
  induction l with
  | nil => exact List.suffix_rfl
  | cons a l ih =>
    rw [List.dropWhile_cons]
    by_cases ha : p a
    · rw [if_pos ha]
      exact ih.trans (List.suffix_cons a l)
    · rw [if_neg ha]

theorem head?_of_front {a : Type} (l1 l2 : List a) (h : l1 <+: l2) (c : a)
    (hc : l1.head? = some c) : l2.head? = some c := by
  obtain ⟨t, rfl⟩ := h
  cases l1 with
  | nil => simp at hc
  | cons x l => simpa using hc

theorem stripChars_idem (p : Char → Bool) (l : List Char) :
    ((((((l.dropWhile p).reverse.dropWhile p).reverse).dropWhile p).reverse).dropWhile p).reverse
      = ((l.dropWhile p).reverse.dropWhile p).reverse := by
  have hpre : ((l.dropWhile p).reverse.dropWhile p).reverse <+: l.dropWhile p := by
    have h0 := List.reverse_prefix.mpr (dropWhile_suffix_chars p (l.dropWhile p).reverse)
    rwa [List.reverse_reverse] at h0
  have h1 : (((l.dropWhile p).reverse.dropWhile p).reverse).dropWhile p
      = ((l.dropWhile p).reverse.dropWhile p).reverse :=
    dropWhile_head_false p _ (fun c hc =>
      head_dropWhile_false p l c (head?_of_front _ _ hpre c hc))
  rw [h1, List.reverse_reverse, dropWhile_idem]

theorem pyStrip_idem (s : String) : pyStrip (pyStrip s) = pyStrip s :=
  congrArg String.mk (stripChars_idem Char.isWhitespace s.data)

/-!  Lemmas about metadata extraction. -/

theorem title_entry_spec (doc : Node) (kv : String × String)
    (h : title_entry doc = some kv) : kv.1 = "title" ∧ pyStrip kv.2 = kv.2 := by
  unfold title_entry at h
  split at h
  · split at h
    · split at h
      · exact absurd h (by simp)
      · rw [Option.some.injEq] at h
        subst h
        exact ⟨rfl, pyStrip_idem _⟩
    · exact absurd h (by simp)
  · exact absurd h (by simp)

theorem meta_entry_spec (doc : Node) (key val field : String) (kv : String × String)
    (h : meta_entry doc key val field = some kv) :
    kv.1 = field ∧ pyStrip kv.2 = kv.2 := by
  unfold meta_entry at h
  split at h
  · split at h
    · split at h
      · exact absurd h (by simp)
      · rw [Option.some.injEq] at h
        subst h
        exact ⟨rfl, pyStrip_idem _⟩
    · exact absurd h (by simp)
  · exact absurd h (by simp)

theorem lookup_keys_ne (k : String) :
    ∀ l : List (String × String), (∀ kv ∈ l, kv.1 ≠ k) → l.lookup k = none := by
  intro l
  induction l with
  | nil => intro _; rfl
  | cons a l ih =>
    intro h
    obtain ⟨a1, a2⟩ := a
    have ha : a1 ≠ k := by simpa using h (a1, a2) (by simp)
    rw [List.lookup, show (k == a1) = false from beq_eq_false_iff_ne.mpr (Ne.symm ha)]
    exact ih (fun kv hkv => h kv (by simp [hkv]))

theorem lookup_entry_head (o : Option (String × String)) (l : List (String × String))
    (k : String) (ho : ∀ kv, o = some kv → kv.1 = k) (hl : ∀ kv ∈ l, kv.1 ≠ k) :
    (o.toList ++ l).lookup k = o.map Prod.snd := by
  cases o with
  | none => simpa using lookup_keys_ne k l hl
  | some kv =>
    obtain ⟨k1, v⟩ := kv
    have h1 : k1 = k := ho (k1, v) rfl
    subst h1
    rw [show (some (k1, v)).toList ++ l = (k1, v) :: l from rfl]
    rw [List.lookup, show (k1 == k1) = true from by simp]
    rfl

theorem lookup_entry_skip (o : Option (String × String)) (l : List (String × String))
    (k : String) (ho : ∀ kv, o = some kv → kv.1 ≠ k) :
    (o.toList ++ l).lookup k = l.lookup k := by
  cases o with
  | none => rfl
  | some kv =>
    obtain ⟨k1, v⟩ := kv
    have h1 : k1 ≠ k := ho (k1, v) rfl
    rw [show (some (k1, v)).toList ++ l = (k1, v) :: l from rfl]
    rw [List.lookup, show (k == k1) = false from beq_eq_false_iff_ne.mpr (Ne.symm h1)]

theorem toList_map_fst_sublist (o : Option (String × String)) (k : String)
    (ho : ∀ kv, o = some kv → kv.1 = k) : (o.toList.map Prod.fst).Sublist [k] := by
  cases o with
  | none => simp
  | some kv =>
    rw [show (some kv).toList.map Prod.fst = [kv.1] from rfl,
      show kv.1 = k from ho kv rfl]

/-!  Concrete documents and claim-side definitions used by the claims. -/

/-- Modelled from the spec: the claimed content-root tier-3 filter, "an
element whose identifier is `content`" — with no restriction on the tag
name — for comparison with the code's `div`-restricted filter
`divWithId`. -/
def elemWithId (v : String) : Node → Bool
  | Node.elem _ a _ => attrOf a "id" == some v
  | Node.text _ => false

mutual

/-- Modelled from the spec: the "text content" of an element (the spec's
title rule reads the trimmed text content of the title element), i.e. the
concatenation of all descendant text, for comparison with the code's
`.string`-based rule `nodeString`. -/
def text_content : Node → String
  | Node.text s => s
  | Node.elem _ _ cs => textContentList cs

/-- Text content of a forest. -/
def textContentList : List Node → String
  | [] => ""
  | c :: cs => text_content c ++ textContentList cs

end

/-- A `section` element with identifier `content` (claim C1). -/
def sectionC1 : Node :=
  Node.elem "section" [("id", "content")] [Node.elem "p" [] [Node.text "x"]]

/-- A document whose only content-identified element is a `section`, not a
`div` (claim C1). -/
def docC1 : Node :=
  Node.elem "[document]" []
    [Node.elem "html" [] [Node.elem "body" [] [sectionC1]]]

/-- A document with a `main` element (claim C1 witness). -/
def docC1w : Node :=
  Node.elem "[document]" []
    [Node.elem "html" [] [Node.elem "body" []
      [Node.elem "nav" [] [Node.text "menu"],
       Node.elem "main" [] [Node.elem "p" [] [Node.text "body text"]]]]]

/-- A document whose title element holds only whitespace (claim C5). -/
def docC5 : Node :=
  Node.elem "[document]" []
    [Node.elem "html" []
      [Node.elem "head" [] [Node.elem "title" [] [Node.text "   "]],
       Node.elem "body" [] []]]

/-- A metadata-free document (claim C3). -/
def docC3min : Node :=
  Node.elem "[document]" []
    [Node.elem "html" [] [Node.elem "body" []
      [Node.elem "p" [] [Node.text "Hello World"]]]]

/-- A document with a title (claim C3 witness). -/
def docC3w : Node :=
  Node.elem "[document]" []
    [Node.elem "html" []
      [Node.elem "head" [] [Node.elem "title" [] [Node.text "No Main"]],
       Node.elem "body" [] [Node.elem "p" [] [Node.text "x"]]]]

/-- A document with chrome elements and an image (claim C4 witness). -/
def docC4 : Node :=
  Node.elem "[document]" []
    [Node.elem "html" [] [Node.elem "body" []
      [Node.elem "nav" [] [Node.text "menu"],
       Node.elem "p" [] [Node.text "keep"],
       Node.elem "img" [("src", "photo.jpg"), ("alt", "Testbild")] []]]]

/-- The surviving paragraph of `docC4` (claim C4 witness). -/
def mC4 : Node := Node.elem "p" [] [Node.text "keep"]

/-- A content root with nested `nav` elements: rules overlap and nest
(claim C9 witness). -/
def rootC9 : Node :=
  Node.elem "div" []
    [Node.elem "nav" [] [Node.elem "nav" [] [Node.text "inner"]],
     Node.elem "p" [] [Node.text "x"]]

/-- A title element with mixed content: two children, one a nested tag
(claim C6). -/
def titleC6 : Node :=
  Node.elem "title" [] [Node.text "Hello ", Node.elem "b" [] [Node.text "World"]]

/-- A document whose title element has mixed content (claim C6). -/
def docC6 : Node :=
  Node.elem "[document]" []
    [Node.elem "html" []
      [Node.elem "head" [] [titleC6], Node.elem "body" [] []]]

/-- A document with a description descriptor (claim C6 witness). -/
def docC6w : Node :=
  Node.elem "[document]" []
    [Node.elem "html" []
      [Node.elem "head" []
        [Node.elem "meta" [("name", "description"), ("content", " D ")] []],
       Node.elem "body" [] []]]

/-!  The claims. -/

/-- Claim C10: the `page_url` argument of `html_to_markdown` has no influence
on the result: for every configuration, every parsed document and any two
URL strings, the returned (markdown, metadata) pairs are equal. -/
theorem C10_page_url_no_influence (extra : List Selector) (doc : Node)
    (u1 u2 : String) :
    html_to_markdown extra doc u1 = html_to_markdown extra doc u2 := rfl

/-- Claim C8: whenever the tokenizer cannot be invoked (the oracle yields
`none`), `count_tokens` returns `floor(length(text) / 4)`, and — being a
total function — propagates no error; the empty text counts exactly 0 on
the fallback path, and on the tokenizer path whenever the external encoder
encodes the empty text to the empty token sequence. -/
theorem C8_token_fallback (enc : String → Option (List Nat)) (text : String) :
    (enc text = none → count_tokens enc text = text.length / 4)
    ∧ (enc "" = none → count_tokens enc "" = 0)
    ∧ (enc "" = some [] → count_tokens enc "" = 0) := by
  refine ⟨fun h => by simp [count_tokens, h],
    fun h => by simp [count_tokens, h],
    fun h => by simp [count_tokens, h]⟩

/-- Claim C8 witness: the fallback formula at a concrete text. -/
theorem C8_witness :
    count_tokens encFail "abcdefgh" = ("abcdefgh" : String).length / 4 :=
  (C8_token_fallback encFail "abcdefgh").1 rfl

/-- Claim C7 counterexample: the token estimate is not strictly monotonic
under appending: on the fallback path, appending one character to the
2-character text leaves the estimate at 0. -/
theorem C7_counterexample :
    count_tokens encFail "ab" = 0
    ∧ count_tokens encFail ("ab" ++ "c") = 0
    ∧ ¬ count_tokens encFail "ab" < count_tokens encFail ("ab" ++ "c") := by
  refine ⟨rfl, rfl, by decide⟩

/-- Claim C7 (amended): on the fallback path the token estimate is monotone
non-strictly under appending: the estimate of the longer text is at least
the estimate of the shorter one (strict increase fails, since appending
fewer than four characters can leave `length / 4` unchanged). -/
theorem C7_token_monotone (enc : String → Option (List Nat)) (s t : String)
    (h1 : enc s = none) (h2 : enc (s ++ t) = none) :
    count_tokens enc s ≤ count_tokens enc (s ++ t) := by
  simp only [count_tokens, h1, h2]
  exact Nat.div_le_div_right (by simp [String.length_append])

/-- Claim C7 witness: the amended monotonicity at a concrete input. -/
theorem C7_witness :
    count_tokens encFail "ab" ≤ count_tokens encFail ("ab" ++ "cdef") :=
  C7_token_monotone encFail "ab" "cdef" rfl rfl

/-- Claim C5: evaluation of the extractor at the failing input
`<title>   </title>`: the whitespace-only raw title string is truthy, so
the code stores its trimmed value, which is empty — the extracted metadata
contains an empty entry, contradicting the claimed invariant that a key is
present only with a non-empty trimmed value. -/
theorem C5_empty_entry_eval : extract_metadata docC5 = [("title", "")] := by decide

/-- Claim C9: for every ordered rule set and every rule in it, the sanitizer
removes every element matching that rule from the content root's subtree
(rules may overlap or nest — the functional removal is total, so nothing
errors), and the sanitizer is idempotent: re-running the whole rule set on
an already sanitized root changes nothing, the formal content of "removal
is idempotent against already-detached nodes". -/
theorem C9_sanitizer_removes_all (rules : List Selector) (root : Node)
    (r : Selector) (hr : r ∈ rules) :
    (∀ m ∈ descendants (strip_non_content rules root), matchesSel r m = false)
    ∧ strip_non_content rules (strip_non_content rules root)
        = strip_non_content rules root :=
  ⟨strip_non_content_noMatch rules r root hr, strip_non_content_idem rules root⟩

/-- Claim C9 witness: overlapping, nested rules at a concrete root: the
nested `nav` pair is gone and re-sanitizing changes nothing. -/
theorem C9_witness :
    matchesSel (Selector.tag "nav") (Node.elem "p" [] [Node.text "x"]) = false
    ∧ strip_non_content [Selector.tag "nav", Selector.cls "sidebar"]
        (strip_non_content [Selector.tag "nav", Selector.cls "sidebar"] rootC9)
      = strip_non_content [Selector.tag "nav", Selector.cls "sidebar"] rootC9 := by
  have h := C9_sanitizer_removes_all [Selector.tag "nav", Selector.cls "sidebar"]
    rootC9 (Selector.tag "nav") (by decide)
  exact ⟨h.1 (Node.elem "p" [] [Node.text "x"]) (by decide), h.2⟩

/-- Claim C4: for every configured rule set (defaults plus any extras) and
every document, no navigation, header, footer, script, style, form or aside
element survives in the pruned content root handed to serialization, and no
image element survives either — images are removed unconditionally,
whatever the rule set. -/
theorem C4_no_chrome_no_images (extra : List Selector) (doc : Node) :
    ∀ m ∈ descendants (pruned_content_root extra doc),
      matchesSel (Selector.tag "nav") m = false
      ∧ matchesSel (Selector.tag "header") m = false
      ∧ matchesSel (Selector.tag "footer") m = false
      ∧ matchesSel (Selector.tag "script") m = false
      ∧ matchesSel (Selector.tag "style") m = false
      ∧ matchesSel (Selector.tag "form") m = false
      ∧ matchesSel (Selector.tag "aside") m = false
      ∧ matchesSel (Selector.tag "img") m = false := by
  intro m hm
  unfold pruned_content_root at hm
  have himg : matchesSel (Selector.tag "img") m = false :=
    stripRule_noMatch (Selector.tag "img") _ m hm
  have key : ∀ r : Selector, r ∈ STRIP_SELECTORS extra → matchesSel r m = false :=
    fun r hr =>
      stripRule_pres r (Selector.tag "img") _
        (strip_non_content_noMatch (STRIP_SELECTORS extra) r _ hr) m hm
  refine ⟨key _ ?_, key _ ?_, key _ ?_, key _ ?_, key _ ?_, key _ ?_, key _ ?_, himg⟩
    <;> exact List.mem_append_left _ (by decide)

/-- Claim C4 witness: at a concrete document with chrome and an image, the
surviving paragraph matches none of the stripped element kinds. -/
theorem C4_witness :
    matchesSel (Selector.tag "nav") mC4 = false
    ∧ matchesSel (Selector.tag "header") mC4 = false
    ∧ matchesSel (Selector.tag "footer") mC4 = false
    ∧ matchesSel (Selector.tag "script") mC4 = false
    ∧ matchesSel (Selector.tag "style") mC4 = false
    ∧ matchesSel (Selector.tag "form") mC4 = false
    ∧ matchesSel (Selector.tag "aside") mC4 = false
    ∧ matchesSel (Selector.tag "img") mC4 = false :=
  C4_no_chrome_no_images [] docC4 mC4 (by decide)

/-- Claim C2 counterexample: a run of one blank (whitespace-only) line does
not pass through unchanged: the single-space line is emitted as an empty
line by the cleanup loop. -/
theorem C2_counterexample :
    cleanLines ["a", " ", "b"] = ["a", "", "b"]
    ∧ cleanLines ["a", " ", "b"] ≠ ["a", " ", "b"] := by decide

/-- Claim C2 (amended): the normalizer emits each blank line of a run as an
empty line (so whitespace-only blank lines are normalized to empty rather
than passed through verbatim): any run of blank lines — the lines need not
be identical — followed by a non-blank line becomes `min length 2` empty
lines: runs of 1 or 2 keep their length, runs of 3 or more collapse to
exactly 2; the counter resets on the non-blank line, which is kept verbatim
along with its indentation, a trailing run behaves the same way, and the
joined result is trimmed of leading and trailing whitespace (the
normalizer's output is strip-stable). -/
theorem C2_blank_line_runs (run : List String) (x : String) (rest : List String)
    (hb : ∀ l ∈ run, isBlankLine l = true) (hx : isBlankLine x = false) :
    cleanLines (run ++ x :: rest)
      = List.replicate (min run.length 2) "" ++ x :: cleanLines rest
    ∧ cleanLines run = List.replicate (min run.length 2) ""
    ∧ (∀ s : String, pyStrip (normalizeBlankLines s) = normalizeBlankLines s) := by
  refine ⟨?_, ?_, fun s => pyStrip_idem _⟩
  · have h := cleanAux_blank_run run hb 0 (x :: rest)
    rw [cleanAux_nonblank (0 + run.length) x rest hx] at h
    simpa [cleanLines] using h
  · have h := cleanAux_blank_run run hb 0 []
    simpa [cleanLines, cleanAux] using h

/-- Claim C2 witness: a heterogeneous run of three blank lines (space,
empty, tab) before a non-blank line collapses to two empty lines. -/
theorem C2_witness :
    cleanLines ([" ", "", "\t"] ++ "a" :: [])
      = List.replicate (min ([" ", "", "\t"] : List String).length 2) ""
        ++ "a" :: cleanLines [] :=
  (C2_blank_line_runs [" ", "", "\t"] "a" [] (by decide) (by decide)).1

/-- Claim C3 counterexample: with empty metadata the body passes through
unmodified, so when the normalized body itself begins with three dashes
(e.g. a horizontal rule or literal dashes at the top of the content), the
output does start with the front-matter delimiter, contrary to the claim's
final clause. -/
theorem C3_counterexample :
    extract_metadata docC3min = []
    ∧ py_startswith (compose_front_matter (extract_metadata docC3min) "---") "---"
        = true := by decide

/-- Claim C3 (amended): the front-matter block is prepended iff the
extracted metadata is non-empty; when present the output is exactly the
`---` delimiter, one `key: "escaped-value"` line per present entry, `---`,
a blank line and then the body; when the metadata is empty the body passes
through unmodified (so the output then starts with three dashes only if the
body itself does); and the emitted keys are exactly the present subsequence
of the fixed order title, description, author, keywords, image. -/
theorem C3_front_matter (doc : Node) (body : String) :
    (extract_metadata doc = [] →
      compose_front_matter (extract_metadata doc) body = body)
    ∧ (extract_metadata doc ≠ [] →
      compose_front_matter (extract_metadata doc) body
        = String.intercalate "\n"
            (["---"] ++ (extract_metadata doc).map front_matter_line ++ ["---"])
          ++ "\n\n" ++ body)
    ∧ ((extract_metadata doc).map Prod.fst).Sublist
        ["title", "description", "author", "keywords", "image"] := by
  refine ⟨fun h => by simp [compose_front_matter, h],
    fun h => by simp [compose_front_matter, List.isEmpty_iff, h], ?_⟩
  have hT := toList_map_fst_sublist (title_entry doc) "title"
    (fun kv h => (title_entry_spec doc kv h).1)
  have hD := toList_map_fst_sublist (meta_entry doc "name" "description" "description")
    "description" (fun kv h => (meta_entry_spec doc _ _ _ kv h).1)
  have hA := toList_map_fst_sublist (meta_entry doc "name" "author" "author")
    "author" (fun kv h => (meta_entry_spec doc _ _ _ kv h).1)
  have hK := toList_map_fst_sublist (meta_entry doc "name" "keywords" "keywords")
    "keywords" (fun kv h => (meta_entry_spec doc _ _ _ kv h).1)
  have hI := toList_map_fst_sublist (meta_entry doc "property" "og:image" "image")
    "image" (fun kv h => (meta_entry_spec doc _ _ _ kv h).1)
  simpa [extract_metadata, List.map_append] using
    (((hT.append hD).append hA).append hK).append hI

/-- Claim C3 witness: at a document with a title, the composed output is the
delimited block, a blank line and the body. -/
theorem C3_witness :
    compose_front_matter (extract_metadata docC3w) "B"
      = String.intercalate "\n"
          (["---"] ++ (extract_metadata docC3w).map front_matter_line ++ ["---"])
        ++ "\n\n" ++ "B" :=
  (C3_front_matter docC3w "B").2.1 (by decide)

/-- `find?` returns the first match: the list splits at the returned element
with no earlier match. -/
theorem find?_first_split {a : Type} (p : a → Bool) :
    ∀ (l : List a) (r : a), l.find? p = some r →
      p r = true ∧ ∃ l1 l2, l = l1 ++ r :: l2 ∧ ∀ m ∈ l1, p m = false := by
  intro l
  induction l with
  | nil => simp
  | cons x l ih =>
    intro r h
    by_cases hp : p x
    · rw [List.find?_cons_of_pos _ hp] at h
      rw [Option.some.injEq] at h
      subst h
      exact ⟨hp, [], l, rfl, by simp⟩
    · rw [List.find?_cons_of_neg _ hp] at h
      obtain ⟨hr, l1, l2, heq, hl1⟩ := ih r h
      refine ⟨hr, x :: l1, l2, by simp [heq], ?_⟩
      intro m hm
      rcases List.mem_cons.mp hm with rfl | hm
      · exact Bool.eq_false_iff.mpr hp
      · exact hl1 m hm

/-- Claim C1 counterexample: the claimed tier 3 accepts any element whose
identifier is `content`, but the code restricts tiers 3 and 4 to `div`
elements: in a document whose only content-identified element is a
`section`, such an element exists and is found by the claimed filter, yet
the code selects the document body instead. -/
theorem C1_counterexample :
    find_first docC1 (elemWithId "content") = some sectionC1
    ∧ select_content_root docC1 = Node.elem "body" [] [sectionC1]
    ∧ Node.elem "body" [] [sectionC1] ≠ sectionC1 := by decide

/-- Claim C1 (amended): the content root is selected by the deterministic
first-match fallback chain (1) main element, (2) article element, (3) `div`
whose identifier is content, (4) `div` whose class list contains content,
(5) body, (6) the whole document; `find_first` returns the first matching
element of the document-order descendant list, so within a tier the first
element in document order wins, and the final fallback makes the result
total (never null). -/
theorem C1_content_root_chain (doc : Node) :
    (∀ r, find_first doc (tagNamed "main") = some r → select_content_root doc = r)
    ∧ (find_first doc (tagNamed "main") = none →
        ∀ r, find_first doc (tagNamed "article") = some r →
          select_content_root doc = r)
    ∧ (find_first doc (tagNamed "main") = none →
        find_first doc (tagNamed "article") = none →
        ∀ r, find_first doc (divWithId "content") = some r →
          select_content_root doc = r)
    ∧ (find_first doc (tagNamed "main") = none →
        find_first doc (tagNamed "article") = none →
        find_first doc (divWithId "content") = none →
        ∀ r, find_first doc (divWithClass "content") = some r →
          select_content_root doc = r)
    ∧ (find_first doc (tagNamed "main") = none →
        find_first doc (tagNamed "article") = none →
        find_first doc (divWithId "content") = none →
        find_first doc (divWithClass "content") = none →
        ∀ r, find_first doc (tagNamed "body") = some r →
          select_content_root doc = r)
    ∧ (find_first doc (tagNamed "main") = none →
        find_first doc (tagNamed "article") = none →
        find_first doc (divWithId "content") = none →
        find_first doc (divWithClass "content") = none →
        find_first doc (tagNamed "body") = none →
        select_content_root doc = doc)
    ∧ (∀ (p : Node → Bool) (r : Node), find_first doc p = some r →
        p r = true
        ∧ ∃ l1 l2, descendants doc = l1 ++ r :: l2 ∧ ∀ m ∈ l1, p m = false) := by
  refine ⟨?_, ?_, ?_, ?_, ?_, ?_, ?_⟩
  · intro r h1
    simp [select_content_root, h1]
  · intro h1 r h2
    simp [select_content_root, h1, h2]
  · intro h1 h2 r h3
    simp [select_content_root, h1, h2, h3]
  · intro h1 h2 h3 r h4
    simp [select_content_root, h1, h2, h3, h4]
  · intro h1 h2 h3 h4 r h5
    simp [select_content_root, h1, h2, h3, h4, h5]
  · intro h1 h2 h3 h4 h5
    simp [select_content_root, h1, h2, h3, h4, h5]
  · exact fun p r h => find?_first_split p (descendants doc) r h

/-- Claim C1 witness: in a document with a main element the chain returns
that element. -/
theorem C1_witness :
    select_content_root docC1w
      = Node.elem "main" [] [Node.elem "p" [] [Node.text "body text"]] :=
  (C1_content_root_chain docC1w).1
    (Node.elem "main" [] [Node.elem "p" [] [Node.text "body text"]]) (by decide)

/-- Keys of a single-entry option list are fixed, hence differ from any other
key. -/
theorem toList_keys_ne (o : Option (String × String)) (k k' : String)
    (ho : ∀ kv, o = some kv → kv.1 = k) (hkk : k ≠ k') :
    ∀ kv ∈ o.toList, kv.1 ≠ k' := by
  intro kv hkv
  cases o with
  | none => simp at hkv
  | some kv0 =>
    simp at hkv
    have h1 : kv.1 = k := by rw [hkv]; exact ho kv0 rfl
    rw [h1]
    exact hkk

/-- Key disequality is preserved by append. -/
theorem keys_ne_append {l1 l2 : List (String × String)} {k : String}
    (h1 : ∀ kv ∈ l1, kv.1 ≠ k) (h2 : ∀ kv ∈ l2, kv.1 ≠ k) :
    ∀ kv ∈ l1 ++ l2, kv.1 ≠ k := by
  intro kv hkv
  rcases List.mem_append.mp hkv with h | h
  · exact h1 kv h
  · exact h2 kv h

/-- Values of a single-entry option list are trim-stable when the entry's
value is. -/
theorem toList_val_trimmed (o : Option (String × String))
    (ho : ∀ kv, o = some kv → pyStrip kv.2 = kv.2) :
    ∀ kv ∈ o.toList, pyStrip kv.2 = kv.2 := by
  intro kv hkv
  cases o with
  | none => simp at hkv
  | some kv0 =>
    simp at hkv
    rw [hkv]
    exact ho kv0 rfl

/-- A single-entry option list looked up at its own key. -/
theorem lookup_entry_only (o : Option (String × String)) (k : String)
    (ho : ∀ kv, o = some kv → kv.1 = k) : o.toList.lookup k = o.map Prod.snd := by
  have h := lookup_entry_head o [] k ho (by simp)
  simpa using h

/-- Claim C6 counterexample: the claimed title rule reads the trimmed text
content of the title element; in a document whose title element has mixed
content its text content is the non-empty string Hello World, yet the
code's `.string`-based rule yields no title entry at all. -/
theorem C6_counterexample :
    find_first docC6 (tagNamed "title") = some titleC6
    ∧ pyStrip (text_content titleC6) = "Hello World"
    ∧ (extract_metadata docC6).lookup "title" = none := by decide

/-- Claim C6 (amended): each metadata field is governed by its own source
exactly as the code computes it — `title` by the first title element's
single-string content (`.string`), present iff that raw string exists and
is non-empty, stored trimmed; `description`, `author` and `keywords` by the
first descriptor element whose name-identifier equals the field name;
`image` by the first descriptor whose property-identifier is og:image, in
each case present iff the raw `content` attribute exists and is non-empty
and stored trimmed — missing or raw-empty sources are omitted with no
placeholder values, and every stored value is trim-stable. -/
theorem C6_metadata_rules (doc : Node) :
    (extract_metadata doc).lookup "title" = (title_entry doc).map Prod.snd
    ∧ (extract_metadata doc).lookup "description"
        = (meta_entry doc "name" "description" "description").map Prod.snd
    ∧ (extract_metadata doc).lookup "author"
        = (meta_entry doc "name" "author" "author").map Prod.snd
    ∧ (extract_metadata doc).lookup "keywords"
        = (meta_entry doc "name" "keywords" "keywords").map Prod.snd
    ∧ (extract_metadata doc).lookup "image"
        = (meta_entry doc "property" "og:image" "image").map Prod.snd
    ∧ (∀ kv ∈ extract_metadata doc, pyStrip kv.2 = kv.2) := by
  have hTk : ∀ kv, title_entry doc = some kv → kv.1 = "title" :=
    fun kv h => (title_entry_spec doc kv h).1
  have hDk : ∀ kv, meta_entry doc "name" "description" "description" = some kv →
      kv.1 = "description" := fun kv h => (meta_entry_spec doc _ _ _ kv h).1
  have hAk : ∀ kv, meta_entry doc "name" "author" "author" = some kv →
      kv.1 = "author" := fun kv h => (meta_entry_spec doc _ _ _ kv h).1
  have hKk : ∀ kv, meta_entry doc "name" "keywords" "keywords" = some kv →
      kv.1 = "keywords" := fun kv h => (meta_entry_spec doc _ _ _ kv h).1
  have hIk : ∀ kv, meta_entry doc "property" "og:image" "image" = some kv →
      kv.1 = "image" := fun kv h => (meta_entry_spec doc _ _ _ kv h).1
  have hassoc : extract_metadata doc
      = (title_entry doc).toList
        ++ ((meta_entry doc "name" "description" "description").toList
        ++ ((meta_entry doc "name" "author" "author").toList
        ++ ((meta_entry doc "name" "keywords" "keywords").toList
        ++ (meta_entry doc "property" "og:image" "image").toList))) := by
    simp [extract_metadata]
  refine ⟨?_, ?_, ?_, ?_, ?_, ?_⟩
  · rw [hassoc]
    exact lookup_entry_head _ _ _ hTk
      (keys_ne_append (toList_keys_ne _ _ _ hDk (by decide))
        (keys_ne_append (toList_keys_ne _ _ _ hAk (by decide))
          (keys_ne_append (toList_keys_ne _ _ _ hKk (by decide))
            (toList_keys_ne _ _ _ hIk (by decide)))))
  · rw [hassoc, lookup_entry_skip _ _ _ (fun kv h => by rw [hTk kv h]; decide)]
    exact lookup_entry_head _ _ _ hDk
      (keys_ne_append (toList_keys_ne _ _ _ hAk (by decide))
        (keys_ne_append (toList_keys_ne _ _ _ hKk (by decide))
          (toList_keys_ne _ _ _ hIk (by decide))))
  · rw [hassoc, lookup_entry_skip _ _ _ (fun kv h => by rw [hTk kv h]; decide),
      lookup_entry_skip _ _ _ (fun kv h => by rw [hDk kv h]; decide)]
    exact lookup_entry_head _ _ _ hAk
      (keys_ne_append (toList_keys_ne _ _ _ hKk (by decide))
        (toList_keys_ne _ _ _ hIk (by decide)))
  · rw [hassoc, lookup_entry_skip _ _ _ (fun kv h => by rw [hTk kv h]; decide),
      lookup_entry_skip _ _ _ (fun kv h => by rw [hDk kv h]; decide),
      lookup_entry_skip _ _ _ (fun kv h => by rw [hAk kv h]; decide)]
    exact lookup_entry_head _ _ _ hKk (toList_keys_ne _ _ _ hIk (by decide))
  · rw [hassoc, lookup_entry_skip _ _ _ (fun kv h => by rw [hTk kv h]; decide),
      lookup_entry_skip _ _ _ (fun kv h => by rw [hDk kv h]; decide),
      lookup_entry_skip _ _ _ (fun kv h => by rw [hAk kv h]; decide),
      lookup_entry_skip _ _ _ (fun kv h => by rw [hKk kv h]; decide)]
    exact lookup_entry_only _ _ hIk
  · intro kv hkv
    rw [hassoc] at hkv
    have hTv : ∀ kv1, title_entry doc = some kv1 → pyStrip kv1.2 = kv1.2 :=
      fun kv1 h => (title_entry_spec doc kv1 h).2
    have hMv : ∀ key val field kv1,
        meta_entry doc key val field = some kv1 → pyStrip kv1.2 = kv1.2 :=
      fun key val field kv1 h => (meta_entry_spec doc _ _ _ kv1 h).2
    rcases List.mem_append.mp hkv with h | h
    · exact toList_val_trimmed _ hTv kv h
    rcases List.mem_append.mp h with h | h
    · exact toList_val_trimmed _ (hMv _ _ _) kv h
    rcases List.mem_append.mp h with h | h
    · exact toList_val_trimmed _ (hMv _ _ _) kv h
    rcases List.mem_append.mp h with h | h
    · exact toList_val_trimmed _ (hMv _ _ _) kv h
    · exact toList_val_trimmed _ (hMv _ _ _) kv h

/-- Claim C6 witness: a whitespace-padded description descriptor yields the
trimmed value. -/
theorem C6_witness : (extract_metadata docC6w).lookup "description" = some "D" := by
  rw [(C6_metadata_rules docC6w).2.1]
  decide
